import Mathlib

/-
Verification of the skald-python SDK (skaldlabs/skald-python).

The development shallowly embeds the parts of src/skald_sdk/client.py that
the specification talks about:

- the incremental SSE stream decoder that both streamed_chat and
  streamed_generate_doc contain inline (client.py lines 383-404 and
  475-496): per-chunk UTF-8 decoding, newline buffering, line
  classification, JSON payload parsing, and early termination on a
  done event;
- the error path of the streaming calls (non-success initiating
  response raises an API error before the decoder runs);
- the id_type validation shared by get_memo, update_memo and
  delete_memo;
- the metadata defaulting in create_memo, both as a pure body
  transformation and as a small heap model capturing that the callers
  dictionary is copied rather than mutated.

Python strings are modelled as List Char, byte streams as List Nat.
The payload parser models the behaviour of json.loads (strict mode,
the default) on frame payloads: values are represented by the Json
inductive below, with numeric literals kept as their source text since
the decoder never inspects numeric values.
-/

/-- Shorthand turning a Lean string literal into the List Char model of a
Python string. -/
def chars (s : String) : List Char := s.data

/-- JSON values as produced by json.loads: null, booleans, numbers
(kept as their literal text, the decoder never reads numeric values),
strings, arrays, and objects as ordered field lists. -/
inductive Json where
  | null : Json
  | bool : Bool → Json
  | num : List Char → Json
  | str : List Char → Json
  | arr : List Json → Json
  | obj : List (List Char × Json) → Json

/-- The opening curly brace character. -/
def lbrace : Char := Char.ofNat 123

/-- The closing curly brace character. -/
def rbrace : Char := Char.ofNat 125

/-- JSON insignificant whitespace: space, tab, newline, carriage return. -/
def isJsonWs (c : Char) : Bool := [32, 9, 10, 13].contains c.toNat

/-- Drop leading JSON whitespace. -/
def skipWs (s : List Char) : List Char := s.dropWhile isJsonWs

/-- Value of one hexadecimal digit, as used in a JSON \u escape. -/
def hexVal (c : Char) : Option Nat :=
  let n := c.toNat
  if 48 ≤ n ∧ n ≤ 57 then some (n - 48)
  else if 97 ≤ n ∧ n ≤ 102 then some (n - 87)
  else if 65 ≤ n ∧ n ≤ 70 then some (n - 55)
  else none

/-- Translation of a single-character JSON string escape. -/
def escChar : Char → Option Char
  | '"' => some '"'
  | '\\' => some '\\'
  | '/' => some '/'
  | 'b' => some (Char.ofNat 8)
  | 'f' => some (Char.ofNat 12)
  | 'n' => some '\n'
  | 'r' => some '\r'
  | 't' => some '\t'
  | _ => none

/-- Parse the body of a JSON string after the opening quote, returning the
decoded content and the input after the closing quote.  Strict mode of
json.loads: unescaped control characters are rejected.  The fuel
argument only bounds recursion depth; one unit per consumed character
suffices. -/
def parseStringBody : Nat → List Char → Option (List Char × List Char)
  | 0, _ => none
  | _, [] => none
  | fuel+1, c :: cs =>
    if c == '"' then some ([], cs)
    else if c == '\\' then
      match cs with
      | [] => none
      | e :: cs2 =>
        if e == 'u' then
          match cs2 with
          | h1 :: h2 :: h3 :: h4 :: cs3 =>
            match hexVal h1, hexVal h2, hexVal h3, hexVal h4 with
            | some a, some b, some c2, some d =>
              match parseStringBody fuel cs3 with
              | some r => some (Char.ofNat (((a * 16 + b) * 16 + c2) * 16 + d) :: r.1, r.2)
              | none => none
            | _, _, _, _ => none
          | _ => none
        else
          match escChar e with
          | some ch =>
            match parseStringBody fuel cs2 with
            | some r => some (ch :: r.1, r.2)
            | none => none
          | none => none
    else if c.toNat < 32 then none
    else
      match parseStringBody fuel cs with
      | some r => some (c :: r.1, r.2)
      | none => none

/-- Parse the integer part of a JSON number: a single 0, or a nonzero
digit followed by digits (leading zeros are rejected, as json.loads
does). -/
def parseIntPart : List Char → Option (List Char × List Char)
  | [] => none
  | c :: cs =>
    if c == '0' then some ([c], cs)
    else if c.isDigit then
      some (c :: cs.takeWhile Char.isDigit, cs.dropWhile Char.isDigit)
    else none

/-- Parse an optional fraction part: a dot followed by at least one digit;
otherwise consume nothing. -/
def parseFracPart (s : List Char) : List Char × List Char :=
  match s with
  | c :: cs =>
    if c == '.' then
      let t := cs.takeWhile Char.isDigit
      if t.isEmpty then ([], s) else (c :: t, cs.dropWhile Char.isDigit)
    else ([], s)
  | [] => ([], [])

/-- Parse an optional exponent part: e or E, an optional sign, and at
least one digit; otherwise consume nothing. -/
def parseExpPart (s : List Char) : List Char × List Char :=
  match s with
  | e :: rest =>
    if e == 'e' || e == 'E' then
      match rest with
      | sgn :: rest2 =>
        if sgn == '+' || sgn == '-' then
          let t := rest2.takeWhile Char.isDigit
          if t.isEmpty then ([], s) else (e :: sgn :: t, rest2.dropWhile Char.isDigit)
        else
          let t := rest.takeWhile Char.isDigit
          if t.isEmpty then ([], s) else (e :: t, rest.dropWhile Char.isDigit)
      | [] => ([], s)
    else ([], s)
  | [] => ([], [])

/-- Parse a JSON number literal, returning its source text and the rest of
the input. -/
def parseNumber (s : List Char) : Option (List Char × List Char) :=
  match s with
  | c :: cs =>
    if c == '-' then
      match parseIntPart cs with
      | some r =>
        let f := parseFracPart r.2
        let e := parseExpPart f.2
        some (c :: r.1 ++ f.1 ++ e.1, e.2)
      | none => none
    else
      match parseIntPart s with
      | some r =>
        let f := parseFracPart r.2
        let e := parseExpPart f.2
        some (r.1 ++ f.1 ++ e.1, e.2)
      | none => none
  | [] => none

/-- Strip a fixed literal from the front of the input, if present. -/
def stripLit (lit s : List Char) : Option (List Char) :=
  if lit.isPrefixOf s then some (s.drop lit.length) else none

mutual

/-- Recursive-descent parser for one JSON value, mirroring json.loads
(including its default acceptance of NaN and Infinity).  Fuel bounds the
recursion; every recursive call follows at least one consumed character,
so input length plus two units always suffice. -/
def parseVal : Nat → List Char → Option (Json × List Char)
  | 0, _ => none
  | fuel+1, s =>
    match s with
    | [] => none
    | c :: cs =>
      if c == '"' then
        match parseStringBody (cs.length + 1) cs with
        | some r => some (.str r.1, r.2)
        | none => none
      else if c == lbrace then
        match skipWs cs with
        | d :: ds =>
          if d == rbrace then some (.obj [], ds)
          else
            match parseMembers fuel (skipWs cs) with
            | some r => some (.obj r.1, r.2)
            | none => none
        | [] => none
      else if c == '[' then
        match skipWs cs with
        | d :: ds =>
          if d == ']' then some (.arr [], ds)
          else
            match parseElems fuel (skipWs cs) with
            | some r => some (.arr r.1, r.2)
            | none => none
        | [] => none
      else if c == 't' then
        match stripLit (chars "rue") cs with
        | some r => some (.bool true, r)
        | none => none
      else if c == 'f' then
        match stripLit (chars "alse") cs with
        | some r => some (.bool false, r)
        | none => none
      else if c == 'n' then
        match stripLit (chars "ull") cs with
        | some r => some (.null, r)
        | none => none
      else if c == 'N' then
        match stripLit (chars "aN") cs with
        | some r => some (.num (chars "NaN"), r)
        | none => none
      else if c == 'I' then
        match stripLit (chars "nfinity") cs with
        | some r => some (.num (chars "Infinity"), r)
        | none => none
      else if c == '-' && (chars "Infinity").isPrefixOf cs then
        some (.num (chars "-Infinity"), cs.drop 8)
      else
        match parseNumber s with
        | some r => some (.num r.1, r.2)
        | none => none

/-- Parse the members of a JSON object after the opening brace and
whitespace, up to and including the closing brace. -/
def parseMembers : Nat → List Char → Option (List (List Char × Json) × List Char)
  | 0, _ => none
  | fuel+1, s =>
    match s with
    | c :: cs =>
      if c == '"' then
        match parseStringBody (cs.length + 1) cs with
        | some k =>
          match skipWs k.2 with
          | colon :: s2 =>
            if colon == ':' then
              match parseVal fuel (skipWs s2) with
              | some v =>
                match skipWs v.2 with
                | sep :: s4 =>
                  if sep == ',' then
                    match parseMembers fuel (skipWs s4) with
                    | some rest => some ((k.1, v.1) :: rest.1, rest.2)
                    | none => none
                  else if sep == rbrace then some ([(k.1, v.1)], s4)
                  else none
                | [] => none
              | none => none
            else none
          | [] => none
        | none => none
      else none
    | [] => none

/-- Parse the elements of a JSON array after the opening bracket and
whitespace, up to and including the closing bracket. -/
def parseElems : Nat → List Char → Option (List Json × List Char)
  | 0, _ => none
  | fuel+1, s =>
    match parseVal fuel s with
    | some v =>
      match skipWs v.2 with
      | sep :: s2 =>
        if sep == ',' then
          match parseElems fuel (skipWs s2) with
          | some rest => some (v.1 :: rest.1, rest.2)
          | none => none
        else if sep == ']' then some ([v.1], s2)
        else none
      | [] => none
    | none => none

end

/-- Model of json.loads applied to a frame payload: parse one JSON value
surrounded by optional whitespace; any leftover input is an error
(Extra data), returned as none, as is any parse failure. -/
def jsonLoads (s : List Char) : Option Json :=
  match parseVal (s.length + 2) (skipWs s) with
  | some r => if (skipWs r.2).isEmpty then some r.1 else none
  | none => none

/-- Whitespace stripped by the Python str.strip method (the ASCII part,
which is all a protocol line can contain). -/
def isPyWs (c : Char) : Bool := [32, 9, 10, 13, 11, 12].contains c.toNat

/-- Model of str.strip: drop leading and trailing whitespace. -/
def pyStrip (s : List Char) : List Char :=
  ((s.dropWhile isPyWs).reverse.dropWhile isPyWs).reverse

/-- Lookup in a parsed JSON object with Python dict semantics: json.loads
keeps the last occurrence of a duplicated key, and dict.get returns it. -/
def objGet (fs : List (List Char × Json)) (k : List Char) : Option Json :=
  match fs.reverse.find? (fun kv => kv.1 == k) with
  | some kv => some kv.2
  | none => none

/-- Whether a parsed event is a Python dict (a JSON object).  On any other
value the generators call event.get, which raises AttributeError. -/
def isDictJson : Json → Bool
  | .obj _ => true
  | _ => false

/-- The check event.get with key type comparing equal to the string done,
as written in streamed_chat and streamed_generate_doc. -/
def isDoneJson : Json → Bool
  | .obj fs =>
    match objGet fs (chars "type") with
    | some (.str s) => s == chars "done"
    | _ => false
  | _ => false

/-- Result of the generator body for one complete line: nothing
(blank line, ping line, unrecognized line, or malformed JSON), an event
yielded with processing continuing, an event yielded followed by return
(type done), or an event yielded followed by an AttributeError because
the parsed value is not a dict. -/
inductive LineResult where
  | skip : LineResult
  | emit : Json → LineResult
  | emitDone : Json → LineResult
  | emitCrash : Json → LineResult

/-- Translation of the per-line body of the chunk loop in streamed_chat
(client.py lines 389-404, identical in streamed_generate_doc): strip the
line, skip it if empty or a ping heartbeat, and for a data line parse the
payload after the six-character marker, skipping it on a JSON error. -/
def lineResult (rawLine : List Char) : LineResult :=
  let line := pyStrip rawLine
  if line.isEmpty then .skip
  else if (chars ": ping").isPrefixOf line then .skip
  else if (chars "data: ").isPrefixOf line then
    match jsonLoads (line.drop 6) with
    | none => .skip
    | some e =>
      if isDictJson e then
        if isDoneJson e then .emitDone e else .emit e
      else .emitCrash e
  else .skip

/-- Control status of one streamed call: still consuming chunks, returned
after a done event, or aborted by an uncaught exception. -/
inductive DecStatus where
  | running : DecStatus
  | finished : DecStatus
  | crashed : DecStatus
deriving DecidableEq

/-- Process the complete lines extracted from the buffer, in order,
collecting the yielded events; a done event or a crash stops the whole
generator, so later lines contribute nothing. -/
def processLines : List (List Char) → List Json × DecStatus
  | [] => ([], .running)
  | l :: ls =>
    match lineResult l with
    | .skip => processLines ls
    | .emit e =>
      let r := processLines ls
      (e :: r.1, r.2)
    | .emitDone e => ([e], .finished)
    | .emitCrash e => ([e], .crashed)

/-- Model of buffer.split given newline then buffer = lines.pop(): the
complete newline-terminated lines, paired with the trailing text after
the last newline, kept as the new buffer. -/
def splitNl : List Char → List (List Char) × List Char
  | [] => ([], [])
  | c :: cs =>
    let p := splitNl cs
    if c = '\n' then ([] :: p.1, p.2)
    else
      match p.1 with
      | [] => ([], c :: p.2)
      | l :: ls => ((c :: l) :: ls, p.2)

/-- State of one in-flight streamed call: the unterminated tail text and
the control status. -/
structure DecState where
  buffer : List Char
  status : DecStatus

/-- One iteration of the chunk loop on already-decoded text: append the
chunk to the buffer, split off the complete lines, keep the incomplete
tail, and run the per-line body; a finished or crashed generator consumes
nothing further and yields nothing further. -/
def feedChunk (st : DecState) (chunk : List Char) : DecState × List Json :=
  match st.status with
  | .running =>
    let p := splitNl (st.buffer ++ chunk)
    let r := processLines p.1
    (⟨p.2, r.2⟩, r.1)
  | _ => (st, [])

/-- Feed a sequence of text chunks through the decoder, concatenating the
events each chunk yields. -/
def feedAll (st : DecState) : List (List Char) → List Json
  | [] => []
  | c :: cs =>
    let r := feedChunk st c
    r.2 ++ feedAll r.1 cs

/-- The stream decoder of streamed_chat and streamed_generate_doc applied
to text chunks, starting from an empty buffer. -/
def decodeTextChunks (chunks : List (List Char)) : List Json :=
  feedAll ⟨[], .running⟩ chunks

/-- Whether a byte is a UTF-8 continuation byte. -/
def isContByte (b : Nat) : Bool := 128 ≤ b && b ≤ 191

/-- Strict UTF-8 decoding of a byte sequence, as bytes.decode performs it
in Python: none models a UnicodeDecodeError, raised for truncated
sequences, stray continuation bytes, overlong forms, surrogates, and
out-of-range values. -/
def utf8Decode : List Nat → Option (List Char)
  | [] => some []
  | b :: bs =>
    if b ≤ 127 then
      match utf8Decode bs with
      | some cs => some (Char.ofNat b :: cs)
      | none => none
    else if 194 ≤ b && b ≤ 223 then
      match bs with
      | b1 :: rest =>
        if isContByte b1 then
          match utf8Decode rest with
          | some cs => some (Char.ofNat ((b - 192) * 64 + (b1 - 128)) :: cs)
          | none => none
        else none
      | [] => none
    else if 224 ≤ b && b ≤ 239 then
      match bs with
      | b1 :: b2 :: rest =>
        if isContByte b1 && isContByte b2
            && (b != 224 || 160 ≤ b1) && (b != 237 || b1 ≤ 159) then
          match utf8Decode rest with
          | some cs =>
            some (Char.ofNat (((b - 224) * 64 + (b1 - 128)) * 64 + (b2 - 128)) :: cs)
          | none => none
        else none
      | _ => none
    else if 240 ≤ b && b ≤ 244 then
      match bs with
      | b1 :: b2 :: b3 :: rest =>
        if isContByte b1 && isContByte b2 && isContByte b3
            && (b != 240 || 144 ≤ b1) && (b != 244 || b1 ≤ 143) then
          match utf8Decode rest with
          | some cs =>
            some (Char.ofNat ((((b - 240) * 64 + (b1 - 128)) * 64 + (b2 - 128)) * 64
              + (b3 - 128)) :: cs)
          | none => none
        else none
      | _ => none
    else none

/-- Feed raw byte chunks through the decoder exactly as the chunk loop
does: each arriving chunk is strictly UTF-8 decoded on its own before
being appended to the text buffer.  Returns the yielded events and
whether the stream avoided a UnicodeDecodeError (false aborts it). -/
def bfeedAll (st : DecState) : List (List Nat) → List Json × Bool
  | [] => ([], true)
  | c :: cs =>
    match st.status with
    | .running =>
      match utf8Decode c with
      | none => ([], false)
      | some t =>
        let r := feedChunk st t
        let rest := bfeedAll r.1 cs
        (r.2 ++ rest.1, rest.2)
    | _ => ([], true)

/-- The stream decoder applied to the raw byte chunks the transport
delivers, starting from an empty buffer. -/
def decodeByteChunks (chunks : List (List Nat)) : List Json × Bool :=
  bfeedAll ⟨[], .running⟩ chunks

/-- A Python dict with string keys and JSON-serializable values, in
insertion order, as the request bodies are. -/
abbrev PyDict := List (List Char × Json)

/-- Characters urllib.parse.quote never encodes even with safe set to the
empty string: ASCII letters, digits, underscore, dot, dash, tilde. -/
def isUnreservedChar (c : Char) : Bool :=
  c.isAlpha || c.isDigit || c == '_' || c == '.' || c == '-' || c == '~'

/-- UTF-8 encoding of one character, used by quote for non-ASCII input. -/
def utf8EncodeChar (c : Char) : List Nat :=
  let n := c.toNat
  if n ≤ 127 then [n]
  else if n ≤ 2047 then [192 + n / 64, 128 + n % 64]
  else if n ≤ 65535 then [224 + n / 4096, 128 + (n / 64) % 64, 128 + n % 64]
  else [240 + n / 262144, 128 + (n / 4096) % 64, 128 + (n / 64) % 64, 128 + n % 64]

/-- Uppercase hexadecimal digit. -/
def hexDigitUpper (n : Nat) : Char :=
  if n < 10 then Char.ofNat (48 + n) else Char.ofNat (55 + n)

/-- Model of urllib.parse.quote with safe equal to the empty string, as
the client applies it to caller-supplied identifiers: every byte of the
UTF-8 encoding outside the unreserved set becomes a percent escape. -/
def quote (s : List Char) : List Char :=
  (s.map fun c =>
    if isUnreservedChar c then [c]
    else (utf8EncodeChar c).map (fun b =>
      ['%', hexDigitUpper (b / 16), hexDigitUpper (b % 16)])
      |>.flatten).flatten

/-- An HTTP request as the client would hand it to the transport. -/
structure Request where
  method : List Char
  path : List Char
  body : Option PyDict

/-- The message of the ValueError raised for a bad id_type. -/
def invalidIdTypeMsg (id_type : List Char) : List Char :=
  chars "Invalid id_type: " ++ id_type

/-- Endpoint construction shared by get_memo, update_memo and delete_memo:
percent-encode the identifier and add the id_type query parameter only
when it differs from the default memo_uuid. -/
def memoEndpoint (memo_id id_type : List Char) : List Char :=
  let endpoint := chars "/api/v1/memo/" ++ quote memo_id
  if id_type ≠ chars "memo_uuid" then endpoint ++ chars "?id_type=" ++ id_type
  else endpoint

/-- Translation of get_memo (client.py lines 145-178) up to the point the
request is handed to the transport: validate id_type first, raising
ValueError before any request is built, then build the GET request. -/
def get_memo (memo_id id_type : List Char) : Except (List Char) Request :=
  if id_type ≠ chars "memo_uuid" ∧ id_type ≠ chars "reference_id" then
    .error (invalidIdTypeMsg id_type)
  else
    .ok ⟨chars "GET", memoEndpoint memo_id id_type, none⟩

/-- Translation of update_memo (client.py lines 208-249): same validation,
then a PATCH request carrying the partial update body unchanged. -/
def update_memo (memo_id : List Char) (update_data : PyDict) (id_type : List Char) :
    Except (List Char) Request :=
  if id_type ≠ chars "memo_uuid" ∧ id_type ≠ chars "reference_id" then
    .error (invalidIdTypeMsg id_type)
  else
    .ok ⟨chars "PATCH", memoEndpoint memo_id id_type, some update_data⟩

/-- Translation of delete_memo (client.py lines 251-279): same validation,
then a DELETE request with no body. -/
def delete_memo (memo_id id_type : List Char) : Except (List Char) Request :=
  if id_type ≠ chars "memo_uuid" ∧ id_type ≠ chars "reference_id" then
    .error (invalidIdTypeMsg id_type)
  else
    .ok ⟨chars "DELETE", memoEndpoint memo_id id_type, none⟩

/-- Membership test for a key in a Python dict. -/
def hasKey (d : PyDict) (k : List Char) : Bool := d.any (fun kv => kv.1 == k)

/-- Key lookup in a Python dict (keys are unique, first match). -/
def dictGet (d : PyDict) (k : List Char) : Option Json :=
  match d.find? (fun kv => kv.1 == k) with
  | some kv => some kv.2
  | none => none

/-- The body create_memo transmits (client.py lines 137-141): the callers
data, with metadata set to the empty dict when absent; a dict literal
assignment of a fresh key appends it in insertion order. -/
def create_memo_body (memo_data : PyDict) : PyDict :=
  if hasKey memo_data (chars "metadata") then memo_data
  else memo_data ++ [(chars "metadata", Json.obj [])]

/-- Translation of create_memo (client.py lines 113-143) up to the point
the request is handed to the transport. -/
def create_memo (memo_data : PyDict) : Request :=
  ⟨chars "POST", chars "/api/v1/memo", some (create_memo_body memo_data)⟩

/-- A heap of Python dicts, addressed by allocation index, used to state
that create_memo works on a copy of the callers dict. -/
abbrev Heap := List PyDict

/-- Dereference a dict on the heap. -/
def heapGet (h : Heap) (r : Nat) : PyDict := h.getD r []

/-- Model of the Python expression dict(d): allocate a fresh dict holding
the same entries and return its address. -/
def dictCopyAlloc (h : Heap) (r : Nat) : Heap × Nat := (h ++ [heapGet h r], h.length)

/-- In-place assignment d[k] = v on a Python dict value: overwrite an
existing key or append a new one. -/
def dictSetKey (d : PyDict) (k : List Char) (v : Json) : PyDict :=
  if hasKey d k then d.map (fun kv => if kv.1 == k then (k, v) else kv)
  else d ++ [(k, v)]

/-- Heap-level translation of the body preparation in create_memo
(client.py lines 137-141): data = dict(memo_data), then the conditional
in-place insertion of metadata into data, returning the new heap and the
address of data. -/
def create_memo_prepare (h : Heap) (r : Nat) : Heap × Nat :=
  let a := dictCopyAlloc h r
  let d := heapGet a.1 a.2
  if hasKey d (chars "metadata") then a
  else (a.1.set a.2 (dictSetKey d (chars "metadata") (Json.obj [])), a.2)

/-- The initiating HTTP response of a streaming call: status, the body
text read when the status is an error, and the byte chunks of the stream
otherwise. -/
structure StreamResponse where
  status : Nat
  body : List Char
  byteChunks : List (List Nat)

/-- The httpx is_success predicate: a 2xx status code. -/
def isSuccessStatus (s : Nat) : Bool := 200 ≤ s && s ≤ 299

/-- The API error the client raises: the numeric status plus the message
text it formats. -/
structure ApiError where
  status : Nat
  message : List Char

/-- The f-string the raise sites format: the literal text around the
numeric status and the fully read response body. -/
def apiErrorMessage (status : Nat) (body : List Char) : List Char :=
  chars "Skald API error (" ++ (toString status).data ++ chars "): " ++ body

/-- Translation of streamed_chat (client.py lines 344-404) over the
initiating response: a non-success status raises the API error before the
chunk loop starts; otherwise the byte chunks run through the decoder. -/
def streamed_chat (resp : StreamResponse) : Except ApiError (List Json × Bool) :=
  if isSuccessStatus resp.status then .ok (decodeByteChunks resp.byteChunks)
  else .error ⟨resp.status, apiErrorMessage resp.status resp.body⟩

/-- Translation of streamed_generate_doc (client.py lines 435-496), whose
body is identical to streamed_chat apart from the endpoint. -/
def streamed_generate_doc (resp : StreamResponse) : Except ApiError (List Json × Bool) :=
  if isSuccessStatus resp.status then .ok (decodeByteChunks resp.byteChunks)
  else .error ⟨resp.status, apiErrorMessage resp.status resp.body⟩

/-- Byte encoding of an ASCII text, for building concrete wire streams. -/
def asciiBytes (s : List Char) : List Nat := s.map Char.toNat

/-- The token variant of the stream event union of the specification: a
dict whose type entry is the string token. -/
def isTokenJson : Json → Bool
  | .obj fs =>
    match objGet fs (chars "type") with
    | some (.str s) => s == chars "token"
    | _ => false
  | _ => false

/-- Concatenate protocol lines into one wire chunk, terminating each with
a newline. -/
def linesToStream (ls : List (List Char)) : List Char :=
  (ls.map (fun l => l ++ ['\n'])).flatten

/-- A data frame whose payload is not syntactically valid JSON. -/
def isMalformedDataLine (l : List Char) : Bool :=
  (chars "data: ").isPrefixOf (pyStrip l) && (jsonLoads ((pyStrip l).drop 6)).isNone

/-- How the line split of a concatenation is assembled from the line
splits of the two parts: the complete lines of the first part, then the
first line of the second part completed by the pending buffer, then the
rest. -/
def joinSplit (a b : List (List Char) × List Char) : List (List Char) × List Char :=
  match b.1 with
  | [] => (a.1, a.2 ++ b.2)
  | h :: t => (a.1 ++ (a.2 ++ h) :: t, b.2)

/-- The spec example stream for the heartbeat property: two token frames
around a ping line, then a done frame. -/
def heartbeatStream : List Char :=
  chars "data: \x7b\"type\":\"token\",\"content\":\"Hello\"\x7d\n: ping\ndata: \x7b\"type\":\"token\",\"content\":\" world\"\x7d\ndata: \x7b\"type\":\"done\"\x7d\n"

/-- A token frame cut off immediately before the final byte of a
two-byte UTF-8 character, as an arbitrarily chunking transport may
deliver it. -/
def splitUtfChunk1 : List Nat :=
  asciiBytes (chars "data: \x7b\"type\":\"token\",\"content\":\"") ++ [195]

/-- The remainder of the same frame, starting with the continuation byte
of the split character. -/
def splitUtfChunk2 : List Nat := 169 :: asciiBytes (chars "\"\x7d\n")

/-- A data frame carrying a type that is neither token nor done. -/
def unknownTypeEvent : Json := Json.obj [(chars "type", Json.str (chars "status"))]

example : jsonLoads (chars "\x7b\"type\":\"done\"\x7d") =
    some (Json.obj [(chars "type", Json.str (chars "done"))]) := by rfl

example : jsonLoads (chars " \x7b \"a\" : [1, true, null] \x7d ") =
    some (Json.obj [(chars "a",
      Json.arr [Json.num (chars "1"), Json.bool true, Json.null])]) := by rfl

example : jsonLoads (chars "invalid json") = none := by rfl

example : jsonLoads (chars "\x7b\"type\":\"token\",") = none := by rfl

example :
    decodeTextChunks [chars "data: \x7b\"type\":\"token\",\"content\":\"Hi\"\x7d\ndata: \x7b\"type\":\"done\"\x7d\n"] =
      [Json.obj [(chars "type", Json.str (chars "token")),
                 (chars "content", Json.str (chars "Hi"))],
       Json.obj [(chars "type", Json.str (chars "done"))]] := by rfl

example :
    decodeTextChunks [chars "data: \x7b\"type\":\"token\",", chars "\"content\":\"Hi\"\x7d\n"] =
      [Json.obj [(chars "type", Json.str (chars "token")),
                 (chars "content", Json.str (chars "Hi"))]] := by rfl

example : utf8Decode [104, 105] = some (chars "hi") := by rfl

example : utf8Decode [195, 169] = some [Char.ofNat 233] := by rfl

example : utf8Decode [195] = none := by rfl

example : quote (chars "id with spaces") = chars "id%20with%20spaces" := by rfl

example : apiErrorMessage 500 (chars "Internal Server Error") =
    chars "Skald API error (500): Internal Server Error" := by rfl

/-- Claim C4: the spec byte sequence with two token frames, a ping
heartbeat and a done frame, delivered as a single chunk, yields exactly
the three events token Hello, token world, done, in order, and the
heartbeat line yields nothing. -/
theorem heartbeat_stream_yields_three_events :
    decodeByteChunks [asciiBytes heartbeatStream] =
      ([Json.obj [(chars "type", Json.str (chars "token")),
                  (chars "content", Json.str (chars "Hello"))],
        Json.obj [(chars "type", Json.str (chars "token")),
                  (chars "content", Json.str (chars " world"))],
        Json.obj [(chars "type", Json.str (chars "done"))]], true) := by rfl

/-- Claim C1, exhibited as a code bug: the byte stream of one token frame
whose content is a two-byte UTF-8 character is valid UTF-8 as a whole and
decodes to one token event when delivered in one chunk, but splitting it
between the two bytes of that character makes the decoder raise a
UnicodeDecodeError and lose the frame, because each chunk is decoded
strictly on its own (buffer += chunk.decode in client.py line 385)
instead of buffering incomplete bytes. -/
theorem split_utf8_char_crashes_decoder :
    (utf8Decode (splitUtfChunk1 ++ splitUtfChunk2)).isSome = true ∧
    decodeByteChunks [splitUtfChunk1 ++ splitUtfChunk2] =
      ([Json.obj [(chars "type", Json.str (chars "token")),
                  (chars "content", Json.str [Char.ofNat 233])]], true) ∧
    decodeByteChunks [splitUtfChunk1, splitUtfChunk2] = ([], false) :=
  ⟨rfl, rfl, rfl⟩

/-- Claim C2 fails on the code: a data frame whose payload parses as JSON
but whose type is the string status, neither token nor done, is yielded
to the caller rather than dropped, since the generators yield every
successfully parsed payload without inspecting its type. -/
theorem unknown_type_frame_is_yielded :
    decodeTextChunks [chars "data: \x7b\"type\":\"status\"\x7d\n"] = [unknownTypeEvent] ∧
    isTokenJson unknownTypeEvent = false ∧ isDoneJson unknownTypeEvent = false :=
  ⟨rfl, rfl, rfl⟩

/-- Claim C7: a non-success initiating response on either streaming call
raises the API error carrying that numeric status and the response body
text, and the call produces no stream events, the decoder never being
engaged. -/
theorem streaming_error_status_raises (resp : StreamResponse)
    (h : isSuccessStatus resp.status = false) :
    streamed_chat resp = .error ⟨resp.status, apiErrorMessage resp.status resp.body⟩ ∧
    streamed_generate_doc resp = .error ⟨resp.status, apiErrorMessage resp.status resp.body⟩ := by
  unfold streamed_chat streamed_generate_doc
  rw [if_neg (by simp [h])]
  exact ⟨rfl, rfl⟩

/-- Witness for claim C7 at status 500 with a concrete body. -/
theorem streaming_error_status_raises_witness :
    streamed_chat ⟨500, chars "Internal Server Error", []⟩ =
      .error ⟨500, apiErrorMessage 500 (chars "Internal Server Error")⟩ ∧
    streamed_generate_doc ⟨500, chars "Internal Server Error", []⟩ =
      .error ⟨500, apiErrorMessage 500 (chars "Internal Server Error")⟩ :=
  streaming_error_status_raises ⟨500, chars "Internal Server Error", []⟩ (by decide)

/-- Claim C8: for any id_type outside the two accepted values, each of
get_memo, update_memo and delete_memo raises the ValueError before any
request is constructed, so no network call is attempted. -/
theorem invalid_id_type_fails_before_any_request
    (memo_id id_type : List Char) (update_data : PyDict)
    (h1 : id_type ≠ chars "memo_uuid") (h2 : id_type ≠ chars "reference_id") :
    get_memo memo_id id_type = .error (invalidIdTypeMsg id_type) ∧
    update_memo memo_id update_data id_type = .error (invalidIdTypeMsg id_type) ∧
    delete_memo memo_id id_type = .error (invalidIdTypeMsg id_type) := by
  unfold get_memo update_memo delete_memo
  rw [if_pos ⟨h1, h2⟩, if_pos ⟨h1, h2⟩, if_pos ⟨h1, h2⟩]
  exact ⟨rfl, rfl, rfl⟩

/-- Witness for claim C8 at the concrete invalid id_type uuid. -/
theorem invalid_id_type_fails_before_any_request_witness :
    get_memo (chars "some-id") (chars "uuid") = .error (invalidIdTypeMsg (chars "uuid")) ∧
    update_memo (chars "some-id") [] (chars "uuid") = .error (invalidIdTypeMsg (chars "uuid")) ∧
    delete_memo (chars "some-id") (chars "uuid") = .error (invalidIdTypeMsg (chars "uuid")) :=
  invalid_id_type_fails_before_any_request (chars "some-id") (chars "uuid") []
    (by decide) (by decide)

/-- Finding a key in a dict known not to contain it fails. -/
theorem find?_eq_none_of_hasKey_false (d : PyDict) (k : List Char)
    (h : hasKey d k = false) : d.find? (fun kv => kv.1 == k) = none := by
  rw [List.find?_eq_none]
  intro kv hkv
  have := (List.any_eq_false).1 h kv hkv
  simpa using this

/-- Claim C9: when the callers memo data lacks a metadata key, the
transmitted body carries metadata equal to the empty dict while every
other key maps exactly as the caller supplied it; and when the caller
supplies metadata the body is the callers data unchanged. -/
theorem create_memo_defaults_metadata (memo_data : PyDict)
    (hno : hasKey memo_data (chars "metadata") = false) :
    dictGet (create_memo_body memo_data) (chars "metadata") = some (Json.obj []) ∧
    (∀ k, k ≠ chars "metadata" →
      dictGet (create_memo_body memo_data) k = dictGet memo_data k) ∧
    (∀ d : PyDict, hasKey d (chars "metadata") = true → create_memo_body d = d) := by
  have hbody : create_memo_body memo_data =
      memo_data ++ [(chars "metadata", Json.obj [])] := by
    unfold create_memo_body
    rw [if_neg (by simp [hno])]
  refine ⟨?_, ?_, ?_⟩
  · rw [hbody]
    unfold dictGet
    rw [List.find?_append, find?_eq_none_of_hasKey_false memo_data _ hno]
    simp [List.find?]
  · intro k hk
    rw [hbody]
    unfold dictGet
    rw [List.find?_append]
    have hne : (chars "metadata" == k) = false := by
      rw [beq_eq_false_iff_ne]
      exact fun he => hk he.symm
    have : ([(chars "metadata", Json.obj [])].find? (fun kv => kv.1 == k)) = none := by
      simp [List.find?, hne]
    rw [this, Option.or_none]
  · intro d hd
    unfold create_memo_body
    rw [if_pos hd]

/-- Witness for claim C9: a concrete body without metadata gets the empty
dict, and a concrete body with metadata is transmitted as given. -/
theorem create_memo_defaults_metadata_witness :
    dictGet (create_memo_body
      [(chars "title", Json.str (chars "T")), (chars "content", Json.str (chars "C"))])
      (chars "metadata") = some (Json.obj []) ∧
    create_memo_body
      [(chars "title", Json.str (chars "T")),
       (chars "metadata", Json.obj [(chars "k", Json.str (chars "v"))])] =
      [(chars "title", Json.str (chars "T")),
       (chars "metadata", Json.obj [(chars "k", Json.str (chars "v"))])] :=
  ⟨(create_memo_defaults_metadata
      [(chars "title", Json.str (chars "T")), (chars "content", Json.str (chars "C"))]
      (by rfl)).1,
   (create_memo_defaults_metadata
      [(chars "title", Json.str (chars "T")), (chars "content", Json.str (chars "C"))]
      (by rfl)).2.2
      [(chars "title", Json.str (chars "T")),
       (chars "metadata", Json.obj [(chars "k", Json.str (chars "v"))])] (by rfl)⟩

/-- Claim C10: create_memo copies the callers dict before injecting the
metadata default, so the dict the caller passed in is unchanged on the
heap after the body is prepared, whether or not it contained metadata. -/
theorem create_memo_input_unchanged (h : Heap) (r : Nat) (hr : r < h.length) :
    heapGet (create_memo_prepare h r).1 r = heapGet h r := by
  unfold create_memo_prepare dictCopyAlloc heapGet
  dsimp only
  split
  · simp only [List.getD_eq_getElem?_getD]
    rw [List.getElem?_append_left hr]
  · simp only [List.getD_eq_getElem?_getD]
    rw [List.getElem?_set_ne (by omega : List.length h ≠ r),
      List.getElem?_append_left hr]

/-- Witness for claim C10 on a concrete one-dict heap. -/
theorem create_memo_input_unchanged_witness :
    heapGet (create_memo_prepare [[(chars "title", Json.str (chars "T"))]] 0).1 0 =
      heapGet [[(chars "title", Json.str (chars "T"))]] 0 :=
  create_memo_input_unchanged [[(chars "title", Json.str (chars "T"))]] 0 (by decide)

/-- The pending buffer left by a line split never contains a newline. -/
theorem splitNl_buffer_not_nl (s : List Char) : '\n' ∉ (splitNl s).2 := by
  induction s with
  | nil => simp [splitNl]
  | cons c cs ih =>
    by_cases hc : c = '\n'
    · simpa [splitNl, hc] using ih
    · cases hp : (splitNl cs).1 with
      | nil =>
        simp only [splitNl, if_neg hc, hp]
        intro hmem
        rcases List.mem_cons.1 hmem with h1 | h1
        · exact hc h1.symm
        · exact ih h1
      | cons l ls =>
        simpa [splitNl, hc, hp] using ih

/-- A text without newlines splits into no complete line and itself as
the pending buffer. -/
theorem splitNl_eq_of_not_nl (s : List Char) (h : '\n' ∉ s) : splitNl s = ([], s) := by
  induction s with
  | nil => simp [splitNl]
  | cons c cs ih =>
    have hc : c ≠ '\n' := fun he => h (he ▸ List.mem_cons_self c cs)
    have hcs : '\n' ∉ cs := fun hm => h (List.mem_cons_of_mem c hm)
    simp [splitNl, if_neg hc, ih hcs]

/-- Line splitting distributes over concatenation through joinSplit. -/
theorem splitNl_append (x y : List Char) :
    splitNl (x ++ y) = joinSplit (splitNl x) (splitNl y) := by
  induction x with
  | nil =>
    rcases hy : splitNl y with ⟨ys, yb⟩
    cases ys with
    | nil => simp [splitNl, joinSplit, hy]
    | cons h t => simp [splitNl, joinSplit, hy]
  | cons c x' ih =>
    rcases hq : splitNl x' with ⟨q1, q2⟩
    rcases hy : splitNl y with ⟨ys, yb⟩
    rw [hq, hy] at ih
    by_cases hc : c = '\n'
    · cases ys with
      | nil => simp [splitNl, joinSplit, hc, ih, hq, List.cons_append]
      | cons h t => simp [splitNl, joinSplit, hc, ih, hq, List.cons_append]
    · cases ys with
      | nil =>
        cases q1 with
        | nil => simp [splitNl, joinSplit, hc, ih, hq, List.cons_append]
        | cons l ls => simp [splitNl, joinSplit, hc, ih, hq, List.cons_append]
      | cons h t =>
        cases q1 with
        | nil => simp [splitNl, joinSplit, hc, ih, hq, List.cons_append]
        | cons l ls => simp [splitNl, joinSplit, hc, ih, hq, List.cons_append]

/-- Processing a concatenation of line lists while the first part leaves
the generator running concatenates the events. -/
theorem processLines_append_running (l1 l2 : List (List Char))
    (h : (processLines l1).2 = .running) :
    processLines (l1 ++ l2) =
      ((processLines l1).1 ++ (processLines l2).1, (processLines l2).2) := by
  induction l1 with
  | nil => simp [processLines]
  | cons l ls ih =>
    cases hlr : lineResult l with
    | skip =>
      simp only [List.cons_append, processLines, hlr, List.append_eq] at h ⊢
      exact ih h
    | emit e =>
      simp only [List.cons_append, processLines, hlr, List.append_eq] at h ⊢
      rw [ih h]
    | emitDone e => simp [processLines, hlr] at h
    | emitCrash e => simp [processLines, hlr] at h

/-- Once the first part of a line list stops the generator, the rest of
the lines contribute nothing. -/
theorem processLines_append_halted (l1 l2 : List (List Char))
    (h : (processLines l1).2 ≠ .running) :
    processLines (l1 ++ l2) = processLines l1 := by
  induction l1 with
  | nil => simp [processLines] at h
  | cons l ls ih =>
    cases hlr : lineResult l with
    | skip =>
      simp only [List.cons_append, processLines, hlr, List.append_eq] at h ⊢
      exact ih h
    | emit e =>
      simp only [List.cons_append, processLines, hlr, List.append_eq] at h ⊢
      rw [ih h]
    | emitDone e => simp [processLines, hlr]
    | emitCrash e => simp [processLines, hlr]

/-- A finished or crashed generator ignores an arriving chunk. -/
theorem feedChunk_halted (st : DecState) (c : List Char) (h : st.status ≠ .running) :
    feedChunk st c = (st, []) := by
  obtain ⟨buf, status⟩ := st
  cases status with
  | running => exact absurd rfl h
  | finished => rfl
  | crashed => rfl

/-- A finished or crashed generator yields nothing on any further chunks. -/
theorem feedAll_halted (st : DecState) (cs : List (List Char)) (h : st.status ≠ .running) :
    feedAll st cs = [] := by
  induction cs with
  | nil => rfl
  | cons c cs ih =>
    simp [feedAll, feedChunk_halted st c h, ih]

/-- Feeding a chunk preserves the invariant that the buffer holds no
newline. -/
theorem feedChunk_buffer_not_nl (st : DecState) (c : List Char) (h : '\n' ∉ st.buffer) :
    '\n' ∉ (feedChunk st c).1.buffer := by
  obtain ⟨buf, status⟩ := st
  cases status with
  | running => simpa [feedChunk] using splitNl_buffer_not_nl (buf ++ c)
  | finished => exact h
  | crashed => exact h

/-- Merging two adjacent chunks into one does not change the events the
decoder yields, from any state whose buffer holds no newline. -/
theorem feedAll_merge (st : DecState) (a b : List Char) (rest : List (List Char))
    (hbuf : '\n' ∉ st.buffer) :
    feedAll st (a :: b :: rest) = feedAll st ((a ++ b) :: rest) := by
  obtain ⟨buf, status⟩ := st
  cases status with
  | finished =>
    rw [feedAll_halted _ _ (by simp), feedAll_halted _ _ (by simp)]
  | crashed =>
    rw [feedAll_halted _ _ (by simp), feedAll_halted _ _ (by simp)]
  | running =>
    rcases hsa : splitNl (buf ++ a) with ⟨ls1, r1⟩
    rcases hp1 : processLines ls1 with ⟨es1, st1⟩
    rcases hsb : splitNl b with ⟨bs, bb⟩
    have hr1 : '\n' ∉ r1 := by
      have hx := splitNl_buffer_not_nl (buf ++ a)
      rw [hsa] at hx
      exact hx
    have hcomb : splitNl (buf ++ (a ++ b)) = joinSplit (ls1, r1) (bs, bb) := by
      rw [← List.append_assoc, splitNl_append, hsa, hsb]
    have hsr1b : splitNl (r1 ++ b) = joinSplit ([], r1) (bs, bb) := by
      rw [splitNl_append, splitNl_eq_of_not_nl r1 hr1, hsb]
    have hfc1 : feedChunk ⟨buf, .running⟩ a = (⟨r1, st1⟩, es1) := by
      simp [feedChunk, hsa, hp1]
    cases st1 with
    | running =>
      cases bs with
      | nil =>
        have hfc2 : feedChunk ⟨r1, .running⟩ b = (⟨r1 ++ bb, .running⟩, []) := by
          simp [feedChunk, hsr1b, joinSplit, processLines]
        have hfcR : feedChunk ⟨buf, .running⟩ (a ++ b) = (⟨r1 ++ bb, .running⟩, es1) := by
          simp [feedChunk, hcomb, joinSplit, hp1]
        simp [feedAll, hfc1, hfc2, hfcR]
      | cons hline t =>
        rcases hp2 : processLines ((r1 ++ hline) :: t) with ⟨es2, st2⟩
        have hfc2 : feedChunk ⟨r1, .running⟩ b = (⟨bb, st2⟩, es2) := by
          simp [feedChunk, hsr1b, joinSplit, hp2]
        have hfcR : feedChunk ⟨buf, .running⟩ (a ++ b) = (⟨bb, st2⟩, es1 ++ es2) := by
          have hpl : processLines (ls1 ++ (r1 ++ hline) :: t) = (es1 ++ es2, st2) := by
            rw [processLines_append_running _ _ (by rw [hp1]), hp1, hp2]
          simp [feedChunk, hcomb, joinSplit, hpl]
        simp [feedAll, hfc1, hfc2, hfcR]
    | finished =>
      have hfc2 : feedChunk ⟨r1, DecStatus.finished⟩ b = (⟨r1, DecStatus.finished⟩, []) :=
        feedChunk_halted _ _ (by simp)
      have h4 : feedAll ⟨r1, DecStatus.finished⟩ rest = [] :=
        feedAll_halted _ _ (by simp)
      cases bs with
      | nil =>
        have hfcR : feedChunk ⟨buf, .running⟩ (a ++ b) = (⟨r1 ++ bb, .finished⟩, es1) := by
          simp [feedChunk, hcomb, joinSplit, hp1]
        have h3 : feedAll ⟨r1 ++ bb, DecStatus.finished⟩ rest = [] :=
          feedAll_halted _ _ (by simp)
        simp [feedAll, hfc1, hfc2, hfcR, h3, h4]
      | cons hline t =>
        have hpl : processLines (ls1 ++ (r1 ++ hline) :: t) = (es1, .finished) := by
          rw [processLines_append_halted _ _ (by rw [hp1]; simp), hp1]
        have hfcR : feedChunk ⟨buf, .running⟩ (a ++ b) = (⟨bb, .finished⟩, es1) := by
          simp [feedChunk, hcomb, joinSplit, hpl]
        have h3 : feedAll ⟨bb, DecStatus.finished⟩ rest = [] :=
          feedAll_halted _ _ (by simp)
        simp [feedAll, hfc1, hfc2, hfcR, h3, h4]
    | crashed =>
      have hfc2 : feedChunk ⟨r1, DecStatus.crashed⟩ b = (⟨r1, DecStatus.crashed⟩, []) :=
        feedChunk_halted _ _ (by simp)
      have h4 : feedAll ⟨r1, DecStatus.crashed⟩ rest = [] :=
        feedAll_halted _ _ (by simp)
      cases bs with
      | nil =>
        have hfcR : feedChunk ⟨buf, .running⟩ (a ++ b) = (⟨r1 ++ bb, .crashed⟩, es1) := by
          simp [feedChunk, hcomb, joinSplit, hp1]
        have h3 : feedAll ⟨r1 ++ bb, DecStatus.crashed⟩ rest = [] :=
          feedAll_halted _ _ (by simp)
        simp [feedAll, hfc1, hfc2, hfcR, h3, h4]
      | cons hline t =>
        have hpl : processLines (ls1 ++ (r1 ++ hline) :: t) = (es1, .crashed) := by
          rw [processLines_append_halted _ _ (by rw [hp1]; simp), hp1]
        have hfcR : feedChunk ⟨buf, .running⟩ (a ++ b) = (⟨bb, .crashed⟩, es1) := by
          simp [feedChunk, hcomb, joinSplit, hpl]
        have h3 : feedAll ⟨bb, DecStatus.crashed⟩ rest = [] :=
          feedAll_halted _ _ (by simp)
        simp [feedAll, hfc1, hfc2, hfcR, h3, h4]

/-- Merging two adjacent chunks anywhere in the chunk sequence does not
change the events. -/
theorem feedAll_merge_at (pre : List (List Char)) (st : DecState) (a b : List Char)
    (post : List (List Char)) (hbuf : '\n' ∉ st.buffer) :
    feedAll st (pre ++ a :: b :: post) = feedAll st (pre ++ (a ++ b) :: post) := by
  induction pre generalizing st with
  | nil => exact feedAll_merge st a b post hbuf
  | cons c pre ih =>
    simp only [List.cons_append, feedAll, List.append_eq]
    rw [ih _ (feedChunk_buffer_not_nl st c hbuf)]

/-- Claim C3: splitting the stream text into chunks at any character
boundary does not change the decoder output, since merging any two
adjacent chunks preserves it; in particular a single data frame delivered
in two chunks yields the same single token event as in one chunk. -/
theorem chunk_boundaries_preserve_events :
    (∀ (pre : List (List Char)) (a b : List Char) (post : List (List Char)),
      decodeTextChunks (pre ++ a :: b :: post) = decodeTextChunks (pre ++ (a ++ b) :: post)) ∧
    decodeTextChunks [chars "data: \x7b\"type\":\"token\",", chars "\"content\":\"Hello\"\x7d\n"] =
      [Json.obj [(chars "type", Json.str (chars "token")),
                 (chars "content", Json.str (chars "Hello"))]] ∧
    decodeTextChunks [chars "data: \x7b\"type\":\"token\",\"content\":\"Hello\"\x7d\n"] =
      [Json.obj [(chars "type", Json.str (chars "token")),
                 (chars "content", Json.str (chars "Hello"))]] := by
  refine ⟨fun pre a b post => ?_, by rfl, by rfl⟩
  exact feedAll_merge_at pre ⟨[], .running⟩ a b post (by simp)

/-- A value that is not a dict is never the done event. -/
theorem isDoneJson_false_of_not_dict (e : Json) (h : isDictJson e = false) :
    isDoneJson e = false := by
  cases e <;> simp_all [isDictJson, isDoneJson]

/-- An event yielded with processing continuing is not a done event. -/
theorem lineResult_emit_not_done (l : List Char) (e : Json)
    (h : lineResult l = .emit e) : isDoneJson e = false := by
  simp only [lineResult] at h
  repeat' split at h
  all_goals simp_all

/-- An event yielded just before the AttributeError is not a dict, hence
not a done event. -/
theorem lineResult_crash_not_done (l : List Char) (e : Json)
    (h : lineResult l = .emitCrash e) : isDoneJson e = false := by
  simp only [lineResult] at h
  repeat' split at h
  all_goals simp_all [isDoneJson_false_of_not_dict]

/-- Within the events of one batch of lines, a done event can only be the
last one, and its presence means the generator returned. -/
theorem processLines_done_last (ls : List (List Char)) (es : List Json) (st1 : DecStatus)
    (hpl : processLines ls = (es, st1)) (i : Nat) (h : i < es.length)
    (hd : isDoneJson es[i] = true) :
    st1 = .finished ∧ i = es.length - 1 := by
  induction ls generalizing es st1 i with
  | nil =>
    simp only [processLines] at hpl
    cases hpl
    simp at h
  | cons l ls ih =>
    cases hlr : lineResult l with
    | skip =>
      simp only [processLines, hlr] at hpl
      exact ih es st1 hpl i h hd
    | emit e =>
      rcases hr : processLines ls with ⟨es', st'⟩
      simp only [processLines, hlr, hr] at hpl
      obtain ⟨he, hst⟩ := Prod.mk.injEq .. ▸ hpl
      subst he hst
      cases i with
      | zero =>
        rw [List.getElem_cons_zero] at hd
        rw [lineResult_emit_not_done l e hlr] at hd
        cases hd
      | succ j =>
        rw [List.getElem_cons_succ] at hd
        have hj : j < es'.length := by
          simpa using h
        obtain ⟨h1, h2⟩ := ih es' st' hr j hj hd
        refine ⟨h1, ?_⟩
        simp only [List.length_cons]
        omega
    | emitDone e =>
      simp only [processLines, hlr] at hpl
      obtain ⟨he, hst⟩ := Prod.mk.injEq .. ▸ hpl
      subst he hst
      have : i = 0 := by
        simpa using Nat.lt_one_iff.1 (by simpa using h)
      subst this
      exact ⟨rfl, rfl⟩
    | emitCrash e =>
      simp only [processLines, hlr] at hpl
      obtain ⟨he, hst⟩ := Prod.mk.injEq .. ▸ hpl
      subst he hst
      have : i = 0 := by
        simpa using Nat.lt_one_iff.1 (by simpa using h)
      subst this
      rw [List.getElem_cons_zero] at hd
      rw [lineResult_crash_not_done l e hlr] at hd
      cases hd

/-- Across the whole chunk sequence, a done event can only be the very
last event the decoder yields. -/
theorem feedAll_done_last (cs : List (List Char)) (st : DecState) (out : List Json)
    (hout : feedAll st cs = out) (i : Nat) (h : i < out.length)
    (hd : isDoneJson out[i] = true) : i = out.length - 1 := by
  induction cs generalizing st out i with
  | nil =>
    simp only [feedAll] at hout
    subst hout
    simp at h
  | cons c cs ih =>
    obtain ⟨buf, status⟩ := st
    cases status with
    | finished =>
      rw [feedAll_halted _ _ (by simp)] at hout
      subst hout
      simp at h
    | crashed =>
      rw [feedAll_halted _ _ (by simp)] at hout
      subst hout
      simp at h
    | running =>
      rcases hsp : splitNl (buf ++ c) with ⟨ls, r⟩
      rcases hpl : processLines ls with ⟨es, st1⟩
      have hfc : feedChunk ⟨buf, .running⟩ c = (⟨r, st1⟩, es) := by
        simp [feedChunk, hsp, hpl]
      have hfa : feedAll ⟨buf, DecStatus.running⟩ (c :: cs) =
          es ++ feedAll ⟨r, st1⟩ cs := by
        simp [feedAll, hfc]
      rw [hfa] at hout
      subst hout
      by_cases hi : i < es.length
      · obtain ⟨hfin, hlast⟩ := processLines_done_last ls es st1 hpl i hi
          (by rw [← List.getElem_append_left hi]; exact hd)
        subst hfin
        have hrest : feedAll ⟨r, DecStatus.finished⟩ cs = [] :=
          feedAll_halted _ _ (by simp)
        rw [hrest]
        simp only [List.append_nil]
        exact hlast
      · have hle : es.length ≤ i := Nat.le_of_not_lt hi
        have hlen : i < es.length + (feedAll ⟨r, st1⟩ cs).length := by
          simpa [List.length_append] using h
        have hd2 : isDoneJson (feedAll ⟨r, st1⟩ cs)[i - es.length] = true := by
          rw [← List.getElem_append_right hle]
          exact hd
        have := ih ⟨r, st1⟩ (feedAll ⟨r, st1⟩ cs) rfl (i - es.length) (by omega) hd2
        simp only [List.length_append]
        omega

/-- Claim C6: once a done event has been decoded the decoder terminates
at once, so within the full event sequence of any chunked stream a done
event can only sit at the last position, even when further complete
frames follow in the same chunk or in later chunks. -/
theorem no_event_after_done (chunks : List (List Char)) (i : Nat)
    (h : i < (decodeTextChunks chunks).length)
    (hd : isDoneJson ((decodeTextChunks chunks)[i]) = true) :
    i = (decodeTextChunks chunks).length - 1 :=
  feedAll_done_last chunks ⟨[], .running⟩ (decodeTextChunks chunks) rfl i h hd

/-- Witness for claim C6: a stream whose done frame is followed by a
further token frame in the same chunk yields the done event last. -/
theorem no_event_after_done_witness :
    (0 : Nat) = (decodeTextChunks
      [chars "data: \x7b\"type\":\"done\"\x7d\ndata: \x7b\"type\":\"token\",\"content\":\"late\"\x7d\n"]).length - 1 :=
  no_event_after_done
    [chars "data: \x7b\"type\":\"done\"\x7d\ndata: \x7b\"type\":\"token\",\"content\":\"late\"\x7d\n"]
    0 (by decide) (by decide)

/-- Newline-free lines joined with terminating newlines split back into
exactly those lines with an empty pending buffer. -/
theorem splitNl_linesToStream (ls : List (List Char)) (h : ∀ l ∈ ls, '\n' ∉ l) :
    splitNl (linesToStream ls) = (ls, []) := by
  induction ls with
  | nil => rfl
  | cons l ls ih =>
    have hl : '\n' ∉ l := h l (List.mem_cons_self l ls)
    have hls : ∀ x ∈ ls, '\n' ∉ x := fun x hx => h x (List.mem_cons_of_mem l hx)
    have hstep : linesToStream (l :: ls) = (l ++ ['\n']) ++ linesToStream ls := by
      simp [linesToStream]
    have hone : splitNl (l ++ ['\n']) = ([l], []) := by
      rw [splitNl_append, splitNl_eq_of_not_nl l hl]
      simp [splitNl, joinSplit]
    rw [hstep, splitNl_append, hone, ih hls]
    cases ls with
    | nil => rfl
    | cons l2 t => simp [joinSplit]

/-- A line the generator body skips can be removed from the middle of the
line sequence without changing the outcome. -/
theorem processLines_skip_middle (ls1 ls2 : List (List Char)) (bad : List Char)
    (hb : lineResult bad = .skip) :
    processLines (ls1 ++ bad :: ls2) = processLines (ls1 ++ ls2) := by
  induction ls1 with
  | nil => simp only [List.nil_append, processLines, hb]
  | cons l t ih =>
    cases hlr : lineResult l with
    | skip =>
      simp only [List.cons_append, processLines, hlr, List.append_eq]
      exact ih
    | emit e =>
      simp only [List.cons_append, processLines, hlr, List.append_eq]
      rw [ih]
    | emitDone e => simp [processLines, hlr]
    | emitCrash e => simp [processLines, hlr]

/-- A data line whose payload fails to parse is skipped by the generator
body. -/
theorem lineResult_malformed_skip (l : List Char) (h : isMalformedDataLine l = true) :
    lineResult l = .skip := by
  rw [isMalformedDataLine, Bool.and_eq_true] at h
  obtain ⟨hpre, hnone⟩ := h
  obtain ⟨t, ht⟩ := List.isPrefixOf_iff_prefix.1 hpre
  have hne : (pyStrip l).isEmpty = false := by
    rw [← ht]
    rfl
  have hping : (chars ": ping").isPrefixOf (pyStrip l) = false := by
    rw [← ht]
    rfl
  have hjson : jsonLoads (List.drop 6 (pyStrip l)) = none :=
    Option.isNone_iff_eq_none.1 hnone
  simp [lineResult, hne, hping, hpre, hjson]

/-- Claim C5: a data frame whose payload is not valid JSON is discarded
on its own: the decoded events of a stream containing it equal those of
the same stream with that frame removed, so every valid frame before and
after it is still yielded in order and no error is raised. -/
theorem malformed_frame_dropped_only (ls1 ls2 : List (List Char)) (bad : List Char)
    (hnl : ∀ l ∈ ls1 ++ bad :: ls2, '\n' ∉ l)
    (hbad : isMalformedDataLine bad = true) :
    decodeTextChunks [linesToStream (ls1 ++ bad :: ls2)] =
      decodeTextChunks [linesToStream (ls1 ++ ls2)] := by
  have hnl2 : ∀ l ∈ ls1 ++ ls2, '\n' ∉ l := by
    intro x hx
    apply hnl
    rcases List.mem_append.1 hx with h1 | h1
    · exact List.mem_append.2 (Or.inl h1)
    · exact List.mem_append.2 (Or.inr (List.mem_cons_of_mem bad h1))
  have hd1 : decodeTextChunks [linesToStream (ls1 ++ bad :: ls2)] =
      (processLines (ls1 ++ bad :: ls2)).1 := by
    simp [decodeTextChunks, feedAll, feedChunk, splitNl_linesToStream _ hnl]
  have hd2 : decodeTextChunks [linesToStream (ls1 ++ ls2)] =
      (processLines (ls1 ++ ls2)).1 := by
    simp [decodeTextChunks, feedAll, feedChunk, splitNl_linesToStream _ hnl2]
  rw [hd1, hd2, processLines_skip_middle ls1 ls2 bad (lineResult_malformed_skip bad hbad)]

/-- Witness for claim C5: one invalid JSON frame between two valid token
frames decodes as if it were absent. -/
theorem malformed_frame_dropped_only_witness :
    decodeTextChunks [linesToStream
      [chars "data: \x7b\"type\":\"token\",\"content\":\"Hello\"\x7d",
       chars "data: invalid json",
       chars "data: \x7b\"type\":\"token\",\"content\":\" world\"\x7d"]] =
      decodeTextChunks [linesToStream
        [chars "data: \x7b\"type\":\"token\",\"content\":\"Hello\"\x7d",
         chars "data: \x7b\"type\":\"token\",\"content\":\" world\"\x7d"]] :=
  malformed_frame_dropped_only
    [chars "data: \x7b\"type\":\"token\",\"content\":\"Hello\"\x7d"]
    [chars "data: \x7b\"type\":\"token\",\"content\":\" world\"\x7d"]
    (chars "data: invalid json") (by decide) (by rfl)

/-- Claim C2 as the code has it: every data frame whose payload parses as
JSON is yielded to the caller whatever its type field holds; the
generators perform no filtering to the token and done variants. -/
theorem parsed_data_frame_always_yielded (payload : List Char) (e : Json)
    (hnl : '\n' ∉ payload)
    (hstrip : pyStrip (chars "data: " ++ payload) = chars "data: " ++ payload)
    (hp : jsonLoads payload = some e) :
    decodeTextChunks [(chars "data: " ++ payload) ++ ['\n']] = [e] := by
  have hline : '\n' ∉ chars "data: " ++ payload := by
    intro hm
    rcases List.mem_append.1 hm with h1 | h1
    · revert h1
      decide
    · exact hnl h1
  have hsp : splitNl (chars "data: " ++ (payload ++ ['\n'])) =
      ([chars "data: " ++ payload], []) := by
    rw [← List.append_assoc, splitNl_append, splitNl_eq_of_not_nl _ hline]
    simp [splitNl, joinSplit]
  have hdrop : List.drop 6 (chars "data: " ++ payload) = payload :=
    List.drop_left (chars "data: ") payload
  have hdata : (chars "data: ").isPrefixOf (chars "data: " ++ payload) = true :=
    List.isPrefixOf_iff_prefix.2 ⟨payload, rfl⟩
  have hping : (chars ": ping").isPrefixOf (chars "data: " ++ payload) = false := rfl
  have hempty : (chars "data: " ++ payload).isEmpty = false := rfl
  have hdec : decodeTextChunks [(chars "data: " ++ payload) ++ ['\n']] =
      (processLines [chars "data: " ++ payload]).1 := by
    simp [decodeTextChunks, feedAll, feedChunk, hsp]
  rw [hdec]
  simp only [processLines, lineResult, hstrip, hempty, hping, hdata, hdrop, hp]
  by_cases h1 : isDictJson e = true
  · by_cases h2 : isDoneJson e = true
    · simp [h1, h2]
    · simp [h1, h2]
  · simp [h1]

/-- Witness for the amended claim C2: the frame with type status is
yielded unchanged. -/
theorem parsed_data_frame_always_yielded_witness :
    decodeTextChunks [(chars "data: " ++ chars "\x7b\"type\":\"status\"\x7d") ++ ['\n']] =
      [Json.obj [(chars "type", Json.str (chars "status"))]] :=
  parsed_data_frame_always_yielded (chars "\x7b\"type\":\"status\"\x7d")
    (Json.obj [(chars "type", Json.str (chars "status"))])
    (by decide) (by rfl) (by rfl)
